import Mathlib

/-!
Shallow embedding of `src/examples/boost/foo.cpp`: a program that prints its
own invocation token (`argv[0]`) and then, for each remaining command-line
argument, the result of `boost::filesystem::absolute(path{argv[i]}).string()`,
one per line.  The path semantics embedded here are those of
`boost::filesystem` on POSIX: a purely lexical composition of the token with
the current working directory, with boost's root-name (`//net`-style prefix)
and root-directory decomposition and the separator logic of `path::operator/`.
-/

set_option autoImplicit false

namespace BoostFoo

/-- The POSIX directory separator test (`boost::filesystem::path` on POSIX
recognises only the forward slash). -/
def isSep (c : Char) : Bool := c == '/'

/-- Length of the root-name prefix of a path string, following boost's
`find_root_name_size` on POSIX: a root name is present exactly when the string
begins with two separators not followed by a third (`//`, `//net`, ...), and it
extends up to, but not including, the next separator. -/
def rootNameEnd (p : List Char) : Nat :=
  match p with
  | [] => 0
  | [_] => 0
  | c1 :: c2 :: rest =>
      if c1 = '/' ∧ c2 = '/' then
        match rest with
        | [] => 2
        | c :: rest2 =>
            if c = '/' then 0
            else 3 + (rest2.takeWhile (fun d => d ≠ '/')).length
      else 0

/-- The root name of a path string (`path::root_name()`), possibly empty. -/
def rootName (p : List Char) : List Char := p.take (rootNameEnd p)

/-- Whether a path string has a root directory (`path::has_root_directory()`):
the character right after the root name, if any, is a separator. -/
def hasRootDir (p : List Char) : Bool :=
  match (p.drop (rootNameEnd p)).head? with
  | some c => isSep c
  | none => false

/-- The root directory of a path string as a string (`path::root_directory()`):
a single separator when present, empty otherwise. -/
def rootDir (p : List Char) : List Char :=
  if hasRootDir p then ['/'] else []

/-- The relative part of a path string (`path::relative_path()`): everything
after the root name and the run of separators that follows it. -/
def relPart (p : List Char) : List Char :=
  (p.drop (rootNameEnd p)).dropWhile isSep

/-- `path::is_absolute()` on POSIX: the path has a root directory. -/
def isAbsolutePath (p : List Char) : Bool := hasRootDir p

/-- `path::operator/`: appends `b` to `a`, inserting a preferred separator
when `b` is non-empty, does not start with a separator, and `a` is non-empty
and does not end with one (boost `m_append_separator_if_needed`). -/
def pathAppend (a b : List Char) : List Char :=
  match b with
  | [] => a
  | c :: _ =>
      if isSep c then a ++ b
      else
        match a.getLast? with
        | none => a ++ b
        | some d => if isSep d then a ++ b else a ++ '/' :: b

/-- `boost::filesystem::absolute(p, base)` on POSIX, with `base` the current
working directory (`current_path()` always yields an absolute path, so the
recursive absolutisation of the base is the identity): an empty `p` yields
`base`; a `p` with a root name but no root directory yields
`p.root_name() / base.root_directory() / base.relative_path() / p.relative_path()`;
a `p` with a root directory but no root name yields `p` when `base` has no
root name and `base.root_name() / p` otherwise; a `p` with both is returned
unchanged; a plain relative `p` yields `base / p`. -/
def fsAbsolute (base p : List Char) : List Char :=
  if p = [] then base
  else if rootNameEnd p ≠ 0 then
    if hasRootDir p then p
    else pathAppend (pathAppend (pathAppend (rootName p) (rootDir base)) (relPart base)) (relPart p)
  else if hasRootDir p then
    if rootNameEnd base = 0 then p
    else pathAppend (rootName base) p
  else pathAppend base p

/-- The single error kind of the spec (`InvalidPathError`). -/
inductive ResolveError where
  | invalidPath (token : String)
deriving DecidableEq

/-- Modelled from the spec: the underlying platform's syntactic path-validity
check is not part of the repository sources; per the spec a token is rejected
exactly when the platform cannot interpret it as a path, e.g. when it carries
an embedded null byte.  On POSIX that is the only such token shape. -/
def platformRejects (s : String) : Bool := s.data.contains (Char.ofNat 0)

/-- A directory entry on disk, carrying the type information the spec says
resolution never consults. -/
inductive DiskEntry where
  | file
  | dir
  | symlink (target : String)

/-- The process-visible system state: the current working directory and the
contents of the disk (which paths exist and what they are). -/
structure SysState where
  cwd : String
  disk : String → Option DiskEntry

/-- `PathResolver.resolve`: `fs::absolute(fs::path{token}).string()` against
the current working directory, failing only when the platform rejects the
token. -/
def resolve (st : SysState) (t : String) : Except ResolveError String :=
  if platformRejects t then .error (.invalidPath t)
  else .ok (String.mk (fsAbsolute st.cwd.data t.data))

/-- The string a successful resolution produces. -/
def resolveStr (st : SysState) (t : String) : String :=
  String.mk (fsAbsolute st.cwd.data t.data)

/-- What an uncaught `boost::filesystem` exception prints on standard error
before the process aborts. -/
def errMsg : ResolveError → String
  | .invalidPath _ => "terminate called after throwing an instance of boost::filesystem::filesystem_error"

/-- The observable outcome of one process invocation. -/
structure ProcOutput where
  stdout : List String
  stderr : List String
  exitCode : Nat
deriving DecidableEq

/-- The argument loop of `main`: resolve each token in order, collecting one
output line per success; an exception stops the loop at the first failure. -/
def runArgs (st : SysState) : List String → List String × Option ResolveError
  | [] => ([], none)
  | t :: ts =>
      match resolve st t with
      | .ok r => ((runArgs st ts).1.cons r, (runArgs st ts).2)
      | .error e => ([], some e)

/-- The whole program: print `argv[0]`, then the loop; an uncaught exception
reaches `std::terminate`, which writes to standard error and aborts the
process with a non-zero status (134, the SIGABRT exit status).  The final
system state is returned to record that the program never changes the working
directory or touches the disk. -/
def mainRun (st : SysState) (argv0 : String) (args : List String) :
    ProcOutput × SysState :=
  match (runArgs st args).2 with
  | none => (⟨argv0 :: (runArgs st args).1, [], 0⟩, st)
  | some e => (⟨argv0 :: (runArgs st args).1, [errMsg e], 134⟩, st)

/-- Sample state used by concrete witnesses: working directory `/home/user`,
empty disk. -/
def sampleState : SysState := ⟨"/home/user", fun _ => none⟩

/-- A second sample state: same working directory as `sampleState` but a
different disk, used to observe that resolution ignores the disk. -/
def sampleState2 : SysState := ⟨"/home/user", fun _ => some .dir⟩

example : resolveStr sampleState "." = "/home/user/." := by decide
example : resolveStr sampleState "" = "/home/user" := by decide
example : resolveStr sampleState "//net" = "//net/home/user" := by decide
example : resolveStr sampleState "/etc" = "/etc" := by decide
example : resolveStr sampleState "a//b/../" = "/home/user/a//b/../" := by decide
example : resolveStr ⟨"/", fun _ => none⟩ "a" = "/a" := by decide

/-! ### Helper lemmas about the path operations -/

theorem pathAppend_nil (a : List Char) : pathAppend a [] = a := rfl

theorem prefix_pathAppend (a b : List Char) : a <+: pathAppend a b := by
  rcases b with _ | ⟨c, cs⟩
  · exact List.prefix_refl a
  · simp only [pathAppend]
    by_cases hc : isSep c = true
    · rw [if_pos hc]
      exact List.prefix_append a _
    · rw [if_neg hc]
      rcases hbl : a.getLast? with _ | d
      · exact List.prefix_append a _
      · show a <+: if isSep d = true then a ++ c :: cs else a ++ '/' :: c :: cs
        by_cases hd : isSep d = true
        · rw [if_pos hd]
          exact List.prefix_append a _
        · rw [if_neg hd]
          exact List.prefix_append a _

theorem resolve_ok (st : SysState) (t : String) (h : platformRejects t = false) :
    resolve st t = .ok (resolveStr st t) := by
  simp [resolve, resolveStr, h]

theorem resolve_eq_ok_of (st : SysState) (t r : String)
    (h1 : platformRejects t = false) (h2 : resolveStr st t = r) :
    resolve st t = .ok r := by
  rw [resolve_ok st t h1, h2]

theorem resolve_data {st : SysState} {t r : String} (h : resolve st t = .ok r) :
    platformRejects t = false ∧ r.data = fsAbsolute st.cwd.data t.data := by
  cases hv : platformRejects t
  · rw [resolve, hv] at h
    simp only [Bool.false_eq_true, if_false, Except.ok.injEq] at h
    exact ⟨rfl, by rw [← h]⟩
  · rw [resolve, hv] at h
    simp at h

theorem fsAbsolute_of_rootDir (base p : List Char) (hp : hasRootDir p = true)
    (hb : rootNameEnd base = 0) : fsAbsolute base p = p := by
  have hne : p ≠ [] := by
    intro h
    rw [h] at hp
    exact absurd hp (by decide)
  unfold fsAbsolute
  rw [if_neg hne]
  by_cases hrn : rootNameEnd p ≠ 0
  · rw [if_pos hrn, if_pos hp]
  · rw [if_neg hrn, if_pos hp, if_pos hb]

/-! ### Claims about the resolver alone -/

/-- Claim C2: path resolution raises an error if and only if the underlying
platform rejects the token as a syntactically invalid path (embedded null
byte); every other token succeeds, and resolution never consults the disk
(existence, permissions or type of the target): any two system states with the
same working directory resolve every token identically. -/
theorem resolve_error_iff (st : SysState) (t : String) :
    ((∃ e, resolve st t = .error e) ↔ platformRejects t = true) ∧
    (∀ st2 : SysState, st2.cwd = st.cwd → resolve st2 t = resolve st t) := by
  refine ⟨⟨?_, ?_⟩, ?_⟩
  · rintro ⟨e, he⟩
    cases hv : platformRejects t
    · rw [resolve, hv] at he
      simp at he
    · rfl
  · intro hv
    exact ⟨.invalidPath t, by rw [resolve, hv]; rfl⟩
  · intro st2 h2
    rw [resolve, resolve, h2]

/-- Witness for C2 at a concrete token and two states differing in the disk. -/
theorem resolve_error_iff_witness :
    resolve sampleState2 "a" = resolve sampleState "a" :=
  (resolve_error_iff sampleState "a").2 sampleState2 rfl

/-- Claim C4: a token that is already an absolute path is returned unchanged
by the resolver (for any working directory without a root name, which is every
path the operating system can report as a working directory). -/
theorem resolve_absolute_id (st : SysState) (t : String)
    (hv : platformRejects t = false) (ht : isAbsolutePath t.data = true)
    (hb : rootNameEnd st.cwd.data = 0) :
    resolve st t = .ok t := by
  rw [resolve, hv]
  simp only [Bool.false_eq_true, if_false]
  rw [fsAbsolute_of_rootDir _ _ ht hb]

/-- Witness for C4: the absolute token `/etc` resolves to itself. -/
theorem resolve_absolute_id_witness :
    resolve sampleState "/etc" = .ok "/etc" :=
  resolve_absolute_id sampleState "/etc" (by decide) (by decide) (by decide)

/-- Counterexample to claim C5 as stated: on POSIX the token `//net` is not
absolute (it has a root name but no root directory), yet its resolution
`//net/home/user` does not start with the working directory `/home/user`. -/
theorem relative_starts_cwd_cex :
    isAbsolutePath (String.data "//net") = false ∧
    platformRejects "//net" = false ∧
    resolveStr sampleState "//net" = "//net/home/user" ∧
    ¬ (String.data "/home/user" <+: String.data "//net/home/user") := by
  exact ⟨by decide, by decide, by decide, by decide⟩

/-- Claim C5 (amended): for every relative token without a root name (every
relative token that does not begin with a `//net`-style prefix), the resolved
path starts with the working directory in effect at call time. -/
theorem relative_starts_cwd (st : SysState) (t r : String)
    (hrn : rootNameEnd t.data = 0) (hrd : hasRootDir t.data = false)
    (hok : resolve st t = .ok r) :
    st.cwd.data <+: r.data := by
  rcases resolve_data hok with ⟨_, hr⟩
  rw [hr]
  unfold fsAbsolute
  by_cases hp : t.data = []
  · rw [if_pos hp]
  · rw [if_neg hp, if_neg (by simp [hrn]), if_neg (by simp [hrd])]
    exact prefix_pathAppend _ _

/-- Witness for C5 (amended) at the token `.` in `/home/user`. -/
theorem relative_starts_cwd_witness :
    String.data (SysState.cwd sampleState) <+: String.data "/home/user/." :=
  relative_starts_cwd sampleState "." "/home/user/." (by decide) (by decide)
    (resolve_eq_ok_of sampleState "." "/home/user/." (by decide) (by decide))

theorem head_not_sep (c : Char) (cs : List Char)
    (hrn : rootNameEnd (c :: cs) = 0) (hrd : hasRootDir (c :: cs) = false) :
    isSep c = false := by
  unfold hasRootDir at hrd
  rw [hrn] at hrd
  exact hrd

/-- Counterexample to claim C9 as stated: the empty token is relative, but its
output line is the working directory itself, not the working directory
followed by a separator and the (empty) token. -/
theorem lexical_concat_cex :
    isAbsolutePath (String.data "") = false ∧
    platformRejects "" = false ∧
    resolveStr sampleState "" = "/home/user" ∧
    ("/home/user" : String) ≠ "/home/user" ++ "/" ++ "" := by
  exact ⟨by decide, by decide, by decide, by decide⟩

/-- Claim C9 (amended): for every non-empty relative token without a root
name, when the working directory does not end in a separator, the output line
is exactly the working directory, one separator, and the token unchanged: dot
and dot-dot segments and redundant separators in the token are preserved,
never collapsed. -/
theorem lexical_concat (st : SysState) (t : String) (d : Char)
    (hne : t.data ≠ []) (hrn : rootNameEnd t.data = 0)
    (hrd : hasRootDir t.data = false) (hv : platformRejects t = false)
    (hl : st.cwd.data.getLast? = some d) (hd : isSep d = false) :
    resolve st t = .ok (String.mk (st.cwd.data ++ '/' :: t.data)) := by
  have habs : fsAbsolute st.cwd.data t.data = st.cwd.data ++ '/' :: t.data := by
    unfold fsAbsolute
    rw [if_neg hne, if_neg (by simp [hrn]), if_neg (by simp [hrd])]
    obtain ⟨c, cs, hc⟩ := List.exists_cons_of_ne_nil hne
    rw [hc] at hrn hrd ⊢
    have hcsep : isSep c = false := head_not_sep c cs hrn hrd
    simp only [pathAppend]
    rw [if_neg (by simp [hcsep]), hl]
    show (if isSep d = true then st.cwd.data ++ c :: cs
            else st.cwd.data ++ '/' :: c :: cs) = st.cwd.data ++ '/' :: c :: cs
    rw [if_neg (by simp [hd])]
  rw [resolve, hv]
  simp only [Bool.false_eq_true, if_false, habs]

/-- Witness for C9 (amended): the token `.//a/..` in `/home/user` resolves to
the plain concatenation `/home/user/.//a/..`. -/
theorem lexical_concat_witness :
    resolve sampleState ".//a/.." =
      .ok (String.mk (String.data (SysState.cwd sampleState) ++ '/' :: String.data ".//a/..")) :=
  lexical_concat sampleState ".//a/.." 'r' (by decide) (by decide) (by decide)
    (by decide) (by decide) (by decide)

/-! ### Lemmas about the driver loop -/

theorem resolve_err (st : SysState) (t : String) (h : platformRejects t = true) :
    resolve st t = .error (.invalidPath t) := by
  rw [resolve, h]
  rfl

theorem mainRun_stdout (st : SysState) (argv0 : String) (args : List String) :
    (mainRun st argv0 args).1.stdout = argv0 :: (runArgs st args).1 := by
  unfold mainRun
  rcases (runArgs st args).2 with _ | e <;> rfl

theorem mainRun_state (st : SysState) (argv0 : String) (args : List String) :
    (mainRun st argv0 args).2 = st := by
  unfold mainRun
  rcases (runArgs st args).2 with _ | e <;> rfl

theorem mainRun_exitCode (st : SysState) (argv0 : String) (args : List String) :
    (mainRun st argv0 args).1.exitCode =
      if (runArgs st args).2 = none then 0 else 134 := by
  unfold mainRun
  rcases (runArgs st args).2 with _ | e <;> rfl

theorem mainRun_stderr_err (st : SysState) (argv0 : String) (args : List String)
    (e : ResolveError) (h : (runArgs st args).2 = some e) :
    (mainRun st argv0 args).1.stderr = [errMsg e] := by
  unfold mainRun
  rw [h]

theorem runArgs_all_ok (st : SysState) (args : List String)
    (h : ∀ t ∈ args, platformRejects t = false) :
    runArgs st args = (args.map (resolveStr st), none) := by
  induction args with
  | nil => rfl
  | cons t ts ih =>
      have ht : platformRejects t = false := h t (List.mem_cons_self t ts)
      have hts := ih (fun u hu => h u (List.mem_cons_of_mem t hu))
      simp only [runArgs, resolve_ok st t ht, hts, List.map]

theorem runArgs_append_ok (st : SysState) (pre ts : List String)
    (h : ∀ t ∈ pre, platformRejects t = false) :
    runArgs st (pre ++ ts) =
      (pre.map (resolveStr st) ++ (runArgs st ts).1, (runArgs st ts).2) := by
  induction pre with
  | nil => simp
  | cons t pre ih =>
      have ht : platformRejects t = false := h t (List.mem_cons_self t pre)
      have hpre := ih (fun u hu => h u (List.mem_cons_of_mem t hu))
      simp only [List.cons_append, runArgs, resolve_ok st t ht, List.append_eq, hpre, List.map]

theorem runArgs_snd_none_iff (st : SysState) (args : List String) :
    (runArgs st args).2 = none ↔ ∀ t ∈ args, platformRejects t = false := by
  induction args with
  | nil => simp [runArgs]
  | cons t ts ih =>
      cases hv : platformRejects t
      · simp only [runArgs, resolve_ok st t hv, List.forall_mem_cons, hv, ih]
        simp
      · simp only [runArgs, resolve_err st t hv, List.forall_mem_cons, hv]
        simp

/-! ### Structure lemmas for idempotence -/

theorem takeWhile_append_of_all {α : Type} (P : α → Bool) (l1 l2 : List α)
    (h : ∀ x ∈ l1, P x = true) :
    (l1 ++ l2).takeWhile P = l1 ++ l2.takeWhile P := by
  induction l1 with
  | nil => rfl
  | cons a l ih =>
      have ha : P a = true := h a (List.mem_cons_self a l)
      simp only [List.cons_append, List.takeWhile_cons, ha, if_true]
      rw [ih (fun x hx => h x (List.mem_cons_of_mem a hx))]
theorem head_dropWhile_not {α : Type} (P : α → Bool) (l : List α) (c : α)
    (h : (l.dropWhile P).head? = some c) : P c = false := by
  induction l with
  | nil => simp [List.dropWhile] at h
  | cons a as ih =>
      rw [List.dropWhile_cons] at h
      by_cases ha : P a = true
      · rw [if_pos ha] at h
        exact ih h
      · rw [if_neg ha] at h
        have hac : a = c := by simpa using h
        subst hac
        cases hPa : P a with
        | false => rfl
        | true => exact absurd hPa ha

theorem drop_length_takeWhile {α : Type} (P : α → Bool) (l : List α) :
    l.drop (l.takeWhile P).length = l.dropWhile P := by
  induction l with
  | nil => rfl
  | cons a l ih =>
      rw [List.takeWhile_cons, List.dropWhile_cons]
      by_cases ha : P a = true
      · rw [if_pos ha, if_pos ha]
        simpa using ih
      · rw [if_neg ha, if_neg ha]
        rfl

theorem rootNameEnd_two (c1 c2 : Char) :
    rootNameEnd [c1, c2] = if c1 = '/' ∧ c2 = '/' then 2 else 0 := rfl

theorem rootNameEnd_many (c1 c2 c : Char) (rest2 : List Char) :
    rootNameEnd (c1 :: c2 :: c :: rest2) =
      if c1 = '/' ∧ c2 = '/' then
        if c = '/' then 0 else 3 + (rest2.takeWhile (fun d => d ≠ '/')).length
      else 0 := rfl

theorem rootName_only (p : List Char) (h : rootNameEnd p ≠ 0)
    (h2 : hasRootDir p = false) :
    ∃ rest, p = '/' :: '/' :: rest ∧ ∀ x ∈ rest, x ≠ '/' := by
  match p with
  | [] => exact absurd rfl h
  | [c] => exact absurd rfl h
  | c1 :: c2 :: rest =>
      match rest with
      | [] =>
          rw [rootNameEnd_two] at h
          by_cases h12 : c1 = '/' ∧ c2 = '/'
          · obtain ⟨rfl, rfl⟩ := h12
            exact ⟨[], rfl, by simp⟩
          · rw [if_neg h12] at h
            exact absurd rfl h
      | c :: rest2 =>
          rw [rootNameEnd_many] at h
          by_cases h12 : c1 = '/' ∧ c2 = '/'
          case neg =>
            rw [if_neg h12] at h
            exact absurd rfl h
          case pos =>
            obtain ⟨rfl, rfl⟩ := h12
            rw [if_pos ⟨rfl, rfl⟩] at h
            by_cases hcc : c = '/'
            case pos =>
              rw [if_pos hcc] at h
              exact absurd rfl h
            case neg =>
              refine ⟨c :: rest2, rfl, ?_⟩
              have hlen : rootNameEnd ('/' :: '/' :: c :: rest2)
                  = 3 + (rest2.takeWhile (fun d => decide (d ≠ '/'))).length := by
                rw [rootNameEnd_many, if_pos ⟨rfl, rfl⟩, if_neg hcc]
              have hdrop : ('/' :: '/' :: c :: rest2).drop
                  (rootNameEnd ('/' :: '/' :: c :: rest2))
                  = rest2.dropWhile (fun d => decide (d ≠ '/')) := by
                rw [hlen, Nat.add_comm]
                rw [show ('/' :: '/' :: c :: rest2).drop
                      ((rest2.takeWhile (fun d => decide (d ≠ '/'))).length + 3)
                      = rest2.drop ((rest2.takeWhile (fun d => decide (d ≠ '/'))).length)
                    from rfl]
                exact drop_length_takeWhile _ rest2
              have hdw : rest2.dropWhile (fun d => decide (d ≠ '/')) = [] := by
                rcases hde : rest2.dropWhile (fun d => decide (d ≠ '/')) with _ | ⟨e, es⟩
                · rfl
                · exfalso
                  have he : decide (e ≠ '/') = false :=
                    head_dropWhile_not _ rest2 e (by rw [hde]; rfl)
                  have he2 : e = '/' := by simpa using he
                  unfold hasRootDir at h2
                  rw [hdrop, hde, he2] at h2
                  simp [isSep] at h2
              have htws : rest2.takeWhile (fun d => decide (d ≠ '/')) = rest2 := by
                have hsplit := List.takeWhile_append_dropWhile
                  (fun d => decide (d ≠ '/')) rest2
                rw [hdw, List.append_nil] at hsplit
                exact hsplit
              intro x hx
              rcases List.mem_cons.mp hx with rfl | hx2
              · exact hcc
              · have hxtw : x ∈ rest2.takeWhile (fun d => decide (d ≠ '/')) := by
                  rw [htws]
                  exact hx2
                simpa using List.mem_takeWhile_imp hxtw

theorem rootNameEnd_sepfree (rest : List Char) (h : ∀ x ∈ rest, x ≠ '/') :
    rootNameEnd ('/' :: '/' :: rest) = rest.length + 2 := by
  cases rest with
  | nil => rfl
  | cons c rest2 =>
      have hc : c ≠ '/' := h c (List.mem_cons_self c rest2)
      rw [rootNameEnd_many, if_pos ⟨rfl, rfl⟩, if_neg hc]
      rw [List.takeWhile_eq_self_iff.mpr
        (fun x hx => by simpa using h x (List.mem_cons_of_mem c hx))]
      simp only [List.length_cons]
      omega

theorem pathAppend_sep_head (a : List Char) (c : Char) (cs : List Char)
    (h : isSep c = true) : pathAppend a (c :: cs) = a ++ c :: cs := by
  simp only [pathAppend]
  rw [if_pos h]

theorem pathAppend_after_sep (a rb : List Char)
    (hhead : ∀ c cs, rb = c :: cs → isSep c = false) :
    pathAppend (a ++ ['/']) rb = a ++ '/' :: rb := by
  cases rb with
  | nil => rfl
  | cons c cs =>
      have hc := hhead c cs rfl
      simp only [pathAppend]
      rw [if_neg (show ¬ isSep c = true by simp [hc]), List.getLast?_concat]
      show (if isSep '/' = true then a ++ ['/'] ++ c :: cs
              else a ++ ['/'] ++ '/' :: c :: cs)
          = a ++ '/' :: c :: cs
      rw [if_pos (show isSep '/' = true from rfl)]
      simp

theorem hasRootDir_rnAppend (rest rb : List Char) (h : ∀ x ∈ rest, x ≠ '/') :
    hasRootDir ('/' :: '/' :: rest ++ '/' :: rb) = true := by
  cases rest with
  | nil =>
      have h0 : rootNameEnd ('/' :: '/' :: '/' :: rb) = 0 := by
        rw [rootNameEnd_many, if_pos ⟨rfl, rfl⟩, if_pos rfl]
      show hasRootDir ('/' :: '/' :: '/' :: rb) = true
      unfold hasRootDir
      rw [h0]
      rfl
  | cons c rest2 =>
      have hc : c ≠ '/' := h c (List.mem_cons_self c rest2)
      have htw : (rest2 ++ '/' :: rb).takeWhile (fun d => decide (d ≠ '/')) = rest2 := by
        rw [takeWhile_append_of_all _ rest2 _
          (fun x hx => by simpa using h x (List.mem_cons_of_mem c hx))]
        rw [List.takeWhile_cons]
        rw [if_neg (show ¬ (decide (('/' : Char) ≠ '/') = true) by simp)]
        simp
      have h0 : rootNameEnd ('/' :: '/' :: c :: (rest2 ++ '/' :: rb))
          = 3 + rest2.length := by
        rw [rootNameEnd_many, if_pos ⟨rfl, rfl⟩, if_neg hc, htw]
      show hasRootDir ('/' :: '/' :: c :: (rest2 ++ '/' :: rb)) = true
      unfold hasRootDir
      rw [h0, Nat.add_comm]
      rw [show ('/' :: '/' :: c :: (rest2 ++ '/' :: rb)).drop (rest2.length + 3)
            = (rest2 ++ '/' :: rb).drop rest2.length from rfl]
      rw [List.drop_left]
      rfl

theorem rootNameEnd_append_zero (base x : List Char) (hb1 : base.head? = some '/')
    (hb2 : rootNameEnd base = 0)
    (hx : base = ['/'] → ∀ e es, x = e :: es → e ≠ '/') :
    rootNameEnd (base ++ x) = 0 := by
  match base with
  | [] => simp at hb1
  | [b0] =>
      have hb0 : b0 = '/' := by simpa using hb1
      subst hb0
      rcases x with _ | ⟨e, es⟩
      · rfl
      · have he : e ≠ '/' := hx rfl e es rfl
        rcases es with _ | ⟨f, fs⟩
        · rw [show (['/'] ++ [e] : List Char) = [('/' : Char), e] from rfl, rootNameEnd_two]
          rw [if_neg (by rintro ⟨-, h2⟩; exact he h2)]
        · rw [show (['/'] ++ e :: f :: fs : List Char) = '/' :: e :: f :: fs from rfl,
            rootNameEnd_many]
          rw [if_neg (by rintro ⟨-, h2⟩; exact he h2)]
  | b0 :: b1 :: bs =>
      have hb0 : b0 = '/' := by simpa using hb1
      subst hb0
      by_cases hb1' : b1 = '/'
      case neg =>
        simp only [List.cons_append]
        rcases hbsx : bs ++ x with _ | ⟨g, gs⟩
        · rw [rootNameEnd_two]
          rw [if_neg (by rintro ⟨-, h2⟩; exact hb1' h2)]
        · rw [rootNameEnd_many]
          rw [if_neg (by rintro ⟨-, h2⟩; exact hb1' h2)]
      case pos =>
        subst hb1'
        match bs with
        | [] => exact absurd hb2 (by decide)
        | b2 :: bs2 =>
            have hb2' : b2 = '/' := by
              by_contra hne
              rw [rootNameEnd_many, if_pos ⟨rfl, rfl⟩, if_neg hne] at hb2
              omega
            subst hb2'
            simp only [List.cons_append]
            rw [rootNameEnd_many, if_pos ⟨rfl, rfl⟩, if_pos rfl]

theorem hasRootDir_base_append (base x : List Char) (hb1 : base.head? = some '/')
    (hb2 : rootNameEnd base = 0)
    (hx : base = ['/'] → ∀ e es, x = e :: es → e ≠ '/') :
    hasRootDir (base ++ x) = true := by
  unfold hasRootDir
  rw [rootNameEnd_append_zero base x hb1 hb2 hx, List.drop_zero]
  match base with
  | [] => simp at hb1
  | b0 :: bs =>
      have hb0 : b0 = '/' := by simpa using hb1
      subst hb0
      rfl

/-- Under a genuine working directory (non-empty, beginning with a separator,
no `//net`-style root name), every resolved path has a root directory, i.e. is
absolute in the POSIX sense. -/
theorem hasRootDir_fsAbsolute (base p : List Char) (hb1 : base.head? = some '/')
    (hb2 : rootNameEnd base = 0) : hasRootDir (fsAbsolute base p) = true := by
  have hbroot : hasRootDir base = true := by
    unfold hasRootDir
    rw [hb2, List.drop_zero, hb1]
    rfl
  unfold fsAbsolute
  by_cases hp : p = []
  · rw [if_pos hp]
    exact hbroot
  · rw [if_neg hp]
    by_cases hrn : rootNameEnd p ≠ 0
    · rw [if_pos hrn]
      by_cases hrd : hasRootDir p = true
      · rw [if_pos hrd]
        exact hrd
      · rw [if_neg hrd]
        rw [Bool.not_eq_true] at hrd
        obtain ⟨rest, hpeq, hall⟩ := rootName_only p hrn hrd
        have hlen : rootNameEnd p = rest.length + 2 := by
          rw [hpeq]
          exact rootNameEnd_sepfree rest hall
        have hrnp : rootName p = p := by
          rw [rootName, hlen, hpeq]
          exact List.take_of_length_le (by simp)
        have hrelp : relPart p = [] := by
          unfold relPart
          rw [hlen, hpeq]
          rw [show ('/' :: '/' :: rest).drop (rest.length + 2)
                = rest.drop rest.length from rfl]
          rw [List.drop_length]
          rfl
        have hrdb : rootDir base = ['/'] := by
          rw [rootDir, if_pos hbroot]
        rw [hrelp, pathAppend_nil, hrdb, hrnp,
          pathAppend_sep_head p '/' [] rfl,
          pathAppend_after_sep p (relPart base)
            (fun c cs hc => head_dropWhile_not isSep _ c
              (by unfold relPart at hc; rw [hc]; rfl)),
          hpeq]
        simp only [List.cons_append]
        have := hasRootDir_rnAppend rest (relPart base) hall
        simpa using this
    · rw [if_neg hrn]
      rw [not_not] at hrn
      by_cases hrd : hasRootDir p = true
      · rw [if_pos hrd, if_pos hb2]
        exact hrd
      · rw [if_neg hrd]
        rw [Bool.not_eq_true] at hrd
        obtain ⟨c, cs, hc⟩ := List.exists_cons_of_ne_nil hp
        subst hc
        have hcsep : isSep c = false := head_not_sep c cs hrn hrd
        have hcne : c ≠ '/' := by
          intro hco
          rw [hco] at hcsep
          exact absurd hcsep (by decide)
        simp only [pathAppend]
        rw [if_neg (show ¬ isSep c = true by simp [hcsep])]
        rcases hbl : base.getLast? with _ | d
        · rw [List.getLast?_eq_none_iff] at hbl
          subst hbl
          simp at hb1
        · show hasRootDir
            (if isSep d = true then base ++ c :: cs else base ++ '/' :: c :: cs) = true
          by_cases hd : isSep d = true
          · rw [if_pos hd]
            refine hasRootDir_base_append base (c :: cs) hb1 hb2 ?_
            intro _ e es hees
            have : c = e := (List.cons.injEq c cs e es ▸ hees).1
            rw [← this]
            exact hcne
          · rw [if_neg hd]
            refine hasRootDir_base_append base ('/' :: c :: cs) hb1 hb2 ?_
            intro hbase
            exfalso
            rw [hbase] at hbl
            have hds : d = '/' := by simpa using hbl.symm
            rw [hds] at hd
            exact hd rfl
/-! ### Claims about the whole program -/

/-- Claim C1: every invocation writes argument zero (the invocation token) to
standard output followed by a line terminator, unresolved, and then, for each
remaining argument in order, the resolved absolute path of that token on its
own line; an invocation with no arguments therefore produces exactly one
output line. -/
theorem main_output_lines (st : SysState) (argv0 : String) (args : List String)
    (h : ∀ t ∈ args, platformRejects t = false) :
    (mainRun st argv0 args).1.stdout = argv0 :: args.map (resolveStr st) ∧
    (mainRun st argv0 args).1.stdout.length = args.length + 1 := by
  rw [mainRun_stdout, runArgs_all_ok st args h]
  exact ⟨rfl, by simp⟩

/-- Witness for C1 on a one-argument invocation. -/
theorem main_output_lines_witness :
    (mainRun sampleState "program" ["a"]).1.stdout
        = "program" :: (["a"] : List String).map (resolveStr sampleState) ∧
    (mainRun sampleState "program" ["a"]).1.stdout.length
        = (["a"] : List String).length + 1 :=
  main_output_lines sampleState "program" ["a"] (by decide)

/-- Claim C3: the exit code is zero exactly when every argument token resolves
successfully; on a failing token an error message goes to standard error, the
exit code is non-zero, and no further token is processed (standard output
holds only the invocation token and the resolutions that preceded the
failure). -/
theorem main_exit_code (st : SysState) (argv0 : String) (args : List String) :
    ((mainRun st argv0 args).1.exitCode = 0 ↔
        ∀ t ∈ args, platformRejects t = false) ∧
    ∀ pre bad post, args = pre ++ bad :: post →
      (∀ t ∈ pre, platformRejects t = false) → platformRejects bad = true →
      (mainRun st argv0 args).1.stdout = argv0 :: pre.map (resolveStr st) ∧
      (mainRun st argv0 args).1.stderr ≠ [] ∧
      (mainRun st argv0 args).1.exitCode ≠ 0 := by
  constructor
  · rw [mainRun_exitCode]
    rcases hv : (runArgs st args).2 with _ | e
    · constructor
      · intro _
        exact (runArgs_snd_none_iff st args).mp hv
      · intro _
        simp
    · constructor
      · intro h0
        simp at h0
      · intro hall
        have h2 := (runArgs_snd_none_iff st args).mpr hall
        rw [hv] at h2
        cases h2
  · intro pre bad post heq hpre hbad
    subst heq
    have h2 : runArgs st (bad :: post) = ([], some (.invalidPath bad)) := by
      simp only [runArgs, resolve_err st bad hbad]
    have h1 : runArgs st (pre ++ bad :: post)
        = (pre.map (resolveStr st), some (.invalidPath bad)) := by
      rw [runArgs_append_ok st pre _ hpre, h2]
      simp
    refine ⟨?_, ?_, ?_⟩
    · rw [mainRun_stdout, h1]
    · rw [mainRun_stderr_err st argv0 _ _ (by rw [h1])]
      simp
    · rw [mainRun_exitCode, h1]
      simp

/-- Witness for C3: an invocation whose second token carries an embedded null
byte aborts after printing the invocation token and the first resolution. -/
theorem main_exit_code_witness :
    (mainRun sampleState "program" (["a"] ++ String.mk [Char.ofNat 0] :: ["b"])).1.stdout
        = "program" :: (["a"] : List String).map (resolveStr sampleState) ∧
    (mainRun sampleState "program" (["a"] ++ String.mk [Char.ofNat 0] :: ["b"])).1.stderr ≠ [] ∧
    (mainRun sampleState "program" (["a"] ++ String.mk [Char.ofNat 0] :: ["b"])).1.exitCode ≠ 0 :=
  (main_exit_code sampleState "program" _).2 ["a"] (String.mk [Char.ofNat 0]) ["b"]
    rfl (by decide) (by decide)

/-- Claim C7: resolution is deterministic — two calls with the same token and
the same working directory yield identical results, whatever the rest of the
system state holds — and the program itself never changes the working
directory. -/
theorem resolve_deterministic (st1 st2 : SysState) (t argv0 : String)
    (args : List String) (h : st1.cwd = st2.cwd) :
    resolve st1 t = resolve st2 t ∧
    (mainRun st1 argv0 args).2.cwd = st1.cwd := by
  constructor
  · rw [resolve, resolve, h]
  · rw [mainRun_state]

/-- Witness for C7 at a concrete token and two states sharing a working
directory but holding different disks. -/
theorem resolve_deterministic_witness :
    resolve sampleState "x" = resolve sampleState2 "x" ∧
    (mainRun sampleState "program" ["x"]).2.cwd = SysState.cwd sampleState :=
  resolve_deterministic sampleState sampleState2 "x" "program" ["x"] rfl

/-- Counterexample to claim C8 as stated: invoked as `program .` in
`/home/user`, the second output line is `/home/user/.` (the dot segment is not
collapsed), not `/home/user`. -/
theorem scenario_dot_cex :
    (mainRun sampleState "program" ["."]).1.stdout = ["program", "/home/user/."] ∧
    ("/home/user/." : String) ≠ "/home/user" := by
  refine ⟨?_, by decide⟩
  rw [mainRun_stdout]
  decide

/-- Claim C8 (amended): invoked as `program .` with working directory
`/home/user`, line 1 of standard output is the invocation token and line 2 is
exactly `/home/user/.`. -/
theorem scenario_dot (argv0 : String) :
    (mainRun sampleState argv0 ["."]).1.stdout = [argv0, "/home/user/."] := by
  rw [mainRun_stdout]
  have h : (runArgs sampleState ["."]).1 = ["/home/user/."] := by decide
  rw [h]

/-- Claim C10: an empty argument token never causes a failure: it resolves to
the working directory itself, so the program prints for it an output line that
begins with (indeed equals) the working directory. -/
theorem empty_token_ok (st : SysState) (argv0 : String) (pre post : List String)
    (h : ∀ t ∈ pre, platformRejects t = false) :
    resolve st "" = .ok st.cwd ∧
    (mainRun st argv0 (pre ++ "" :: post)).1.stdout[pre.length + 1]? = some st.cwd ∧
    st.cwd.data <+: st.cwd.data := by
  have h0 : resolve st "" = .ok st.cwd := rfl
  refine ⟨h0, ?_, List.prefix_refl _⟩
  have h2 : runArgs st ("" :: post) = (st.cwd :: (runArgs st post).1, (runArgs st post).2) := by
    simp only [runArgs, h0]
  rw [mainRun_stdout, runArgs_append_ok st pre _ h, h2]
  have h3 : (List.map (resolveStr st) pre ++ st.cwd :: (runArgs st post).1)[pre.length]?
      = some st.cwd := by
    rw [List.getElem?_append_right (by simp)]
    simp
  simpa using h3

/-- Claim C6: resolution is idempotent — resolving a path the resolver has
already produced returns it unchanged, because a resolved path is absolute and
resolving an absolute path is the identity (for any genuine working directory:
non-empty, beginning with a separator, without a `//net`-style root name). -/
theorem resolve_idempotent (st : SysState) (t r : String)
    (hb1 : st.cwd.data.head? = some '/') (hb2 : rootNameEnd st.cwd.data = 0)
    (hok : resolve st t = .ok r) (hv : platformRejects r = false) :
    resolve st r = .ok r := by
  rcases resolve_data hok with ⟨-, hr⟩
  have hroot : hasRootDir r.data = true := by
    rw [hr]
    exact hasRootDir_fsAbsolute st.cwd.data t.data hb1 hb2
  rw [resolve, hv]
  simp only [Bool.false_eq_true, if_false]
  rw [fsAbsolute_of_rootDir _ _ hroot hb2]

/-- Witness for C6: `/home/user/a`, the resolution of `a`, resolves to
itself. -/
theorem resolve_idempotent_witness :
    resolve sampleState "/home/user/a" = .ok "/home/user/a" :=
  resolve_idempotent sampleState "a" "/home/user/a" (by decide) (by decide)
    (resolve_eq_ok_of sampleState "a" "/home/user/a" (by decide) (by decide))
    (by decide)

/-- Witness for C10: the empty token between two ordinary tokens produces the
working directory as its output line. -/
theorem empty_token_ok_witness :
    resolve sampleState "" = .ok (SysState.cwd sampleState) ∧
    (mainRun sampleState "program" (["a"] ++ "" :: ["b"])).1.stdout[(["a"] : List String).length + 1]?
        = some (SysState.cwd sampleState) ∧
    (SysState.cwd sampleState).data <+: (SysState.cwd sampleState).data :=
  empty_token_ok sampleState "program" ["a"] ["b"] (by decide)

end BoostFoo
